import Mathlib

/-!
Shallow embedding of the Bazel-cache Cloudflare worker (`src/index.js`) and
proofs about the spec's claims.

The worker coordinates two external stores:
  * an R2 blob bucket, modelled as an association list from object key to
    object body (`Bucket`);
  * a D1/SQLite metadata table `CacheEntries (key TEXT PRIMARY KEY,
    last_used INTEGER)`, modelled as a list of `CacheRow` kept in ascending
    key order (the order of the SQLite primary-key index through which every
    query in the source reads the table).

Times are integers: milliseconds since epoch for `Date.now()` values, and
seconds (`Math.floor(Date.now() / 1000)`, here `Int.fdiv nowMs 1000`) for the
database timestamps, exactly as in the source.
-/

/-- Decide the lexicographic string order through the character-list order,
so that concrete comparisons evaluate inside the kernel (the default
`String.decidableLT` goes through byte iterators and does not reduce). -/
instance (a b : String) : Decidable (a < b) :=
  decidable_of_iff (a.toList < b.toList) String.lt_iff_toList_lt.symm

/-- `POSITIVE_TTL` from the source: cache a found token for 10 minutes (ms). -/
def POSITIVE_TTL : Int := 10 * 60 * 1000

/-- `NEGATIVE_TTL` from the source: cache a not-found result for 5 seconds (ms). -/
def NEGATIVE_TTL : Int := 5 * 1000

/-- `STALENESS_THRESHOLD` from the source: two weeks in seconds. -/
def STALENESS_THRESHOLD : Int := 86400 * 14

/-- `STALE_OBJECT_BATCH_SIZE` from the source: stale keys deleted per batch. -/
def STALE_OBJECT_BATCH_SIZE : Nat := 100

/-- One stored entry of the in-memory `TokenCache`: `expiration` is in
milliseconds since epoch; `value = none` models the JS `null` that
`fetchFromR2` returns for a missing object. -/
structure TokenEntry where
  expiration : Int
  value : Option String
deriving DecidableEq

/-- The worker-global in-memory token cache (`this.tokens`), an association
list from token id to entry. -/
structure TokenCache where
  tokens : List (String × TokenEntry)
deriving DecidableEq

/-- Result of `TokenCache.retrieve`: the returned value, the cache after the
call, and whether `fetchFn` was invoked (the observable effect of the miss
branch in the source). -/
structure TokenRetrieveResult where
  value : Option String
  cache : TokenCache
  invokedFetch : Bool
deriving DecidableEq

/-- JS truthiness of `value` in `const ttl = value ? POSITIVE_TTL :
NEGATIVE_TTL`: `null` and the empty string are falsy. -/
def jsTruthy : Option String → Bool
  | some s => !s.isEmpty
  | none => false

/-- Assignment `m[k] = v` on an association list: the new pair replaces any
existing binding for `k`. -/
def assocSet {α : Type} (l : List (String × α)) (k : String) (v : α) :
    List (String × α) :=
  (k, v) :: l.filter (fun p => !(p.1 == k))

/-- `TokenCache.retrieve(tokenId, fetchFn)` from the source.  `fetched` is the
value `await fetchFn()` would produce (the fetch function is pure in this
model: it reads the bucket); `invokedFetch` records whether the source would
actually have called it.  Note the source's guard is
`tokenId in this.tokens && this.tokens[tokenId].expiration < now`: the cached
value is returned when the entry's expiration is in the PAST. -/
def TokenCache.retrieve (c : TokenCache) (nowMs : Int) (tokenId : String)
    (fetched : Option String) : TokenRetrieveResult :=
  match c.tokens.lookup tokenId with
  | some e =>
    if e.expiration < nowMs then
      { value := e.value, cache := c, invokedFetch := false }
    else
      { value := fetched
        cache := ⟨assocSet c.tokens tokenId
          { expiration := nowMs + (if jsTruthy fetched then POSITIVE_TTL else NEGATIVE_TTL)
            value := fetched }⟩
        invokedFetch := true }
  | none =>
      { value := fetched
        cache := ⟨assocSet c.tokens tokenId
          { expiration := nowMs + (if jsTruthy fetched then POSITIVE_TTL else NEGATIVE_TTL)
            value := fetched }⟩
        invokedFetch := true }

/-- A parsed request URL as the WHATWG `URL` class exposes it: `urlToObjectName`
reads only `pathname`, which for an http(s) URL always begins with "/". -/
structure URL where
  scheme : String
  host : String
  pathname : String
deriving DecidableEq

/-- HTTP method of a request, as far as the router distinguishes them. -/
inductive HttpMethod where
  | put
  | get
  | other
deriving DecidableEq

/-- An inbound request: method, URL, the two auth headers (absent = `none`),
and the body. -/
structure Request where
  method : HttpMethod
  url : URL
  tokenIdHeader : Option String
  tokenValueHeader : Option String
  body : String
deriving DecidableEq

/-- `urlToObjectName` from the source: `new URL(u).pathname.slice(1)` — drop
the leading slash, nothing else. -/
def urlToObjectName (u : URL) : String :=
  u.pathname.drop 1

/-- The R2 bucket: association list from object key to object body. -/
abbrev Bucket := List (String × String)

/-- `bucket.get(key)`: the object body, or `none` (JS `null`) if absent. -/
def bucketGet (b : Bucket) (key : String) : Option String :=
  b.lookup key

/-- `bucket.put(key, body)`. -/
def bucketPut (b : Bucket) (key : String) (body : String) : Bucket :=
  assocSet b key body

/-- `bucket.delete(keys)`: remove every object whose key is in `keys`. -/
def bucketDelete (b : Bucket) (keys : List String) : Bucket :=
  b.filter (fun p => !(keys.contains p.1))

/-- `fetchFromR2(key, bucket)` from the source: the object's text, or `null`. -/
def fetchFromR2 (key : String) (b : Bucket) : Option String :=
  bucketGet b key

/-- One row of the `CacheEntries` table. -/
structure CacheRow where
  key : String
  last_used : Int
deriving DecidableEq

/-- Insert a fresh row at its place in the ascending-key order that the
primary-key index maintains. -/
def insertRowSorted (db : List CacheRow) (r : CacheRow) : List CacheRow :=
  match db with
  | [] => [r]
  | s :: rest => if r.key < s.key then r :: s :: rest else s :: insertRowSorted rest r

/-- `INSERT INTO CacheEntries (key, last_used) VALUES (?1, ?2) ON
CONFLICT(key) DO UPDATE SET last_used=excluded.last_used`. -/
def upsertCacheEntry (db : List CacheRow) (key : String) (t : Int) : List CacheRow :=
  if db.any (fun r => r.key == key) then
    db.map (fun r => if r.key == key then { key := r.key, last_used := t } else r)
  else
    insertRowSorted db { key := key, last_used := t }

/-- `UPDATE CacheEntries SET last_used=?1 WHERE key=?2`: a point update, rows
with other keys (and the row set itself) are untouched. -/
def updateLastUsed (db : List CacheRow) (key : String) (t : Int) : List CacheRow :=
  db.map (fun r => if r.key == key then { key := r.key, last_used := t } else r)

/-- `DELETE FROM CacheEntries WHERE key IN (...)` (`deleteKeysFromDB`). -/
def deleteKeysFromDB (db : List CacheRow) (keys : List String) : List CacheRow :=
  db.filter (fun r => !(keys.contains r.key))

/-- The WHERE clause `key > ?1 AND last_used <= ?2` of the sweeper's query. -/
def isStaleMatch (marker : String) (staleTime : Int) (r : CacheRow) : Bool :=
  decide (marker < r.key) && decide (r.last_used ≤ staleTime)

/-- `SELECT key FROM CacheEntries WHERE key > ?1 AND last_used <= ?2 LIMIT ?3`
with `?3 = STALE_OBJECT_BATCH_SIZE`, reading the table in primary-key order. -/
def nextStaleBatch (db : List CacheRow) (marker : String) (staleTime : Int) :
    List String :=
  ((db.filter (isStaleMatch marker staleTime)).map (fun r => r.key)).take
    STALE_OBJECT_BATCH_SIZE

/-- All keys matching the sweeper's WHERE clause (no LIMIT): the keys the scan
started at `marker` will eventually report. -/
def staleKeysAfter (db : List CacheRow) (marker : String) (staleTime : Int) :
    List String :=
  (db.filter (isStaleMatch marker staleTime)).map (fun r => r.key)

/-- The worker-visible state: the D1 table, the R2 bucket, and the in-memory
token cache. -/
structure SysState where
  db : List CacheRow
  bucket : Bucket
  cache : TokenCache
deriving DecidableEq

/-- An HTTP response: status code, and the body for a 200 GET. -/
structure Response where
  status : Nat
  body : Option String
deriving DecidableEq

/-- `authenticated(request, env, ctx)` from the source.  Returns the boolean
outcome together with the token cache after the call (the only state the
function mutates). -/
def authenticated (st : SysState) (req : Request) (nowMs : Int) :
    Bool × TokenCache :=
  match req.tokenIdHeader, req.tokenValueHeader with
  | some id, some userValue =>
    let key := "tokens/" ++ id
    let res := st.cache.retrieve nowMs key (fetchFromR2 key st.bucket)
    match res.value with
    | none => (false, res.cache)
    | some storedValue => (userValue == storedValue, res.cache)
  | _, _ => (false, st.cache)

/-- `handlePut` from the source.  `putOk` is the outcome of the external
`bucket.put` call (`putSucceeded`); when it is false the bucket is unchanged
and the handler answers 500, but the index upsert has already happened. -/
def handlePut (st : SysState) (req : Request) (nowMs : Int) (putOk : Bool) :
    Response × SysState :=
  let a := authenticated st req nowMs
  if !a.1 then
    ({ status := 401, body := none }, { st with cache := a.2 })
  else
    let objKey := urlToObjectName req.url
    let nowSec := Int.fdiv nowMs 1000
    let db1 := upsertCacheEntry st.db objKey nowSec
    if putOk then
      ({ status := 201, body := none },
        { db := db1, bucket := bucketPut st.bucket objKey req.body, cache := a.2 })
    else
      ({ status := 500, body := none },
        { db := db1, bucket := st.bucket, cache := a.2 })

/-- `handleGet` from the source.  The `ctx.waitUntil`-scheduled `UPDATE` of
`last_used` is applied to the database state; it is issued before the
`bucket.get`, unconditionally on the blob's presence. -/
def handleGet (st : SysState) (req : Request) (nowMs : Int) :
    Response × SysState :=
  let a := authenticated st req nowMs
  if !a.1 then
    ({ status := 401, body := none }, { st with cache := a.2 })
  else
    let objKey := urlToObjectName req.url
    let nowSec := Int.fdiv nowMs 1000
    let db1 := updateLastUsed st.db objKey nowSec
    match bucketGet st.bucket (urlToObjectName req.url) with
    | none => ({ status := 404, body := none }, { db := db1, bucket := st.bucket, cache := a.2 })
    | some body => ({ status := 200, body := some body }, { db := db1, bucket := st.bucket, cache := a.2 })

/-- The `for await (const keys of getStaleObjectsFromDB(db))` loop of
`scheduled`, fused with the generator.  Each iteration queries one batch; if
it is empty the loop ends; otherwise `env.BUCKET.delete(keys)` is issued — NOT
awaited, so `delOk i` tells whether that fire-and-forget delete of batch `i`
ever takes effect, and the loop proceeds to `deleteKeysFromDB` regardless —
and the marker advances to the last key of the batch.

The source loop is `while (true)`; a non-empty batch strictly shrinks the
table, so `db.length + 1` iterations (the fuel `scheduled` supplies) always
reach the empty-batch exit. -/
def sweepLoop : Nat → List CacheRow → Bucket → String → Int → (Nat → Bool) → Nat →
    List CacheRow × Bucket
  | 0, db, bucket, _, _, _, _ => (db, bucket)
  | fuel + 1, db, bucket, marker, staleTime, delOk, i =>
    if h : nextStaleBatch db marker staleTime = [] then
      (db, bucket)
    else
      let keys := nextStaleBatch db marker staleTime
      let bucket1 := if delOk i then bucketDelete bucket keys else bucket
      sweepLoop fuel (deleteKeysFromDB db keys) bucket1 (keys.getLast h) staleTime
        delOk (i + 1)

/-- `scheduled` from the source: compute `staleTime = Math.floor(Date.now() /
1000 - STALENESS_THRESHOLD)` once, then run the batched sweep from the empty
marker. -/
def scheduled (st : SysState) (nowMs : Int) (delOk : Nat → Bool) : SysState :=
  let staleTime := Int.fdiv nowMs 1000 - STALENESS_THRESHOLD
  let r := sweepLoop (st.db.length + 1) st.db st.bucket "" staleTime delOk 0
  { db := r.1, bucket := r.2, cache := st.cache }

/-- Prefix test on strings through their character lists (the byte-level
`String.startsWith` agrees with this on valid UTF-8, but does not reduce in
the kernel). -/
def strStartsWith (s pre : String) : Bool :=
  pre.data.isPrefixOf s.data

/-- The itty-router dispatch of `fetch`: PUT/GET under `/ac/` or `/cas/` go to
the handlers, everything else to the 404 catch-all. -/
def routeFetch (st : SysState) (req : Request) (nowMs : Int) (putOk : Bool) :
    Response × SysState :=
  let p := req.url.pathname
  if strStartsWith p "/ac/" || strStartsWith p "/cas/" then
    match req.method with
    | .put => handlePut st req nowMs putOk
    | .get => handleGet st req nowMs
    | .other => ({ status := 404, body := none }, st)
  else
    ({ status := 404, body := none }, st)

/-- One operation an external observer can drive the worker through: an
uploaded PUT (with the outcome of the blob write), a GET, or a cron-triggered
sweep (with the outcomes of its fire-and-forget bucket deletes). -/
inductive Op where
  | put (req : Request) (nowMs : Int) (putOk : Bool)
  | get (req : Request) (nowMs : Int)
  | sweep (nowMs : Int) (delOk : Nat → Bool)

/-- The state after one operation. -/
def applyOp (st : SysState) : Op → SysState
  | .put req nowMs putOk => (routeFetch st { req with method := .put } nowMs putOk).2
  | .get req nowMs => (routeFetch st { req with method := .get } nowMs true).2
  | .sweep nowMs delOk => scheduled st nowMs delOk

/-- A state an external observer can reach: start from an empty table and a
bucket holding only auth-token objects (installed out of band, per the
README), then apply any sequence of operations. -/
inductive Reachable : SysState → Prop where
  | init (bucket0 : Bucket) (htok : ∀ p ∈ bucket0, strStartsWith p.1 "tokens/" = true) :
      Reachable { db := [], bucket := bucket0, cache := ⟨[]⟩ }
  | step (st : SysState) (op : Op) (h : Reachable st) : Reachable (applyOp st op)

/-- Key `k` is physically present in the blob store but has no row in the
metadata index — the superset invariant is violated at `k`. -/
def bucketKeyUnindexed (st : SysState) (k : String) : Prop :=
  (bucketGet st.bucket k).isSome = true ∧ ∀ r ∈ st.db, r.key ≠ k

instance (st : SysState) (k : String) : Decidable (bucketKeyUnindexed st k) := by
  unfold bucketKeyUnindexed
  exact inferInstance

/-! ## Helper lemmas -/

theorem string_drop_one_slash (k : String) : ("/" ++ k).drop 1 = k := by
  rw [String.drop_eq]
  show String.mk (("/" ++ k).data.drop 1) = k
  rw [String.data_append]
  rfl

theorem lookup_filter_ne {α : Type} (l : List (String × α)) (k x : String) (hx : x ≠ k) :
    (l.filter (fun p => !(p.1 == k))).lookup x = l.lookup x := by
  induction l with
  | nil => rfl
  | cons p rest ih =>
    obtain ⟨p1, p2⟩ := p
    by_cases hp : p1 = k
    · subst hp
      have hxp : (x == p1) = false := by simpa using hx
      simp [List.filter_cons, List.lookup, hxp, ih]
    · have hp' : (p1 == k) = false := by simpa using hp
      by_cases hxp : x = p1
      · subst hxp
        simp [List.filter_cons, hp', List.lookup]
      · have hxp' : (x == p1) = false := by simpa using hxp
        simp [List.filter_cons, hp', List.lookup, hxp', ih]

theorem lookup_assocSet_self {α : Type} (l : List (String × α)) (k : String) (v : α) :
    (assocSet l k v).lookup k = some v := by
  simp [assocSet]

theorem lookup_assocSet_ne {α : Type} (l : List (String × α)) (k x : String) (v : α)
    (hx : x ≠ k) : (assocSet l k v).lookup x = l.lookup x := by
  have hxk : (x == k) = false := by simpa using hx
  simp [assocSet, List.lookup, hxk]
  exact lookup_filter_ne l k x hx

theorem mem_insertRowSorted (db : List CacheRow) (r : CacheRow) :
    r ∈ insertRowSorted db r := by
  induction db with
  | nil => simp [insertRowSorted]
  | cons s rest ih =>
    unfold insertRowSorted
    by_cases h : r.key < s.key
    · simp [h]
    · simp [h, List.mem_cons]
      exact Or.inr ih

theorem mem_upsertCacheEntry (db : List CacheRow) (k : String) (t : Int) :
    CacheRow.mk k t ∈ upsertCacheEntry db k t := by
  unfold upsertCacheEntry
  by_cases hany : db.any (fun r => r.key == k)
  · rw [if_pos hany]
    obtain ⟨r, hr, hrk⟩ := List.any_eq_true.mp hany
    have hk : r.key = k := by simpa using hrk
    refine List.mem_map.mpr ⟨r, hr, ?_⟩
    simp [hk]
  · rw [if_neg hany]
    exact mem_insertRowSorted db { key := k, last_used := t }

theorem updateLastUsed_map_key (db : List CacheRow) (k : String) (t : Int) :
    (updateLastUsed db k t).map (fun r => r.key) = db.map (fun r => r.key) := by
  unfold updateLastUsed
  rw [List.map_map]
  apply List.map_congr_left
  intro r _
  by_cases h : r.key = k <;> simp [h]

theorem mem_updateLastUsed_of_ne (db : List CacheRow) (k : String) (t : Int)
    (r : CacheRow) (hr : r ∈ db) (hne : r.key ≠ k) : r ∈ updateLastUsed db k t := by
  unfold updateLastUsed
  refine List.mem_map.mpr ⟨r, hr, ?_⟩
  simp [hne]

theorem mem_updateLastUsed_self (db : List CacheRow) (k : String) (t : Int)
    (r : CacheRow) (hr : r ∈ db) (hk : r.key = k) :
    CacheRow.mk r.key t ∈ updateLastUsed db k t := by
  unfold updateLastUsed
  refine List.mem_map.mpr ⟨r, hr, ?_⟩
  simp [hk]

/-! ## C4: token cache retrieve -/

/-- C4: the claim says a live entry (`now < expiration`) is returned from the
cache without invoking `fetchFn`, and an expired one triggers a refetch.  The
source's guard `this.tokens[tokenId].expiration < now` is inverted: evaluating
`TokenCache.retrieve` on a cache holding `("tokens/a", expiration 600000,
value "v")` shows that at `now = 1000` (live) the fetch IS invoked and its
result "w" returned, while at `now = 700000` (expired) the stale cached "v"
is returned with no fetch. -/
theorem tokenCache_retrieve_inverted :
    ((TokenCache.mk [("tokens/a", { expiration := 600000, value := some "v" })]).retrieve
        1000 "tokens/a" (some "w")).invokedFetch = true
    ∧ ((TokenCache.mk [("tokens/a", { expiration := 600000, value := some "v" })]).retrieve
        1000 "tokens/a" (some "w")).value = some "w"
    ∧ ((TokenCache.mk [("tokens/a", { expiration := 600000, value := some "v" })]).retrieve
        700000 "tokens/a" (some "w")).invokedFetch = false
    ∧ ((TokenCache.mk [("tokens/a", { expiration := 600000, value := some "v" })]).retrieve
        700000 "tokens/a" (some "w")).value = some "v" := by
  decide

/-! ## C5: upload ordering and failure atomicity -/

/-- C5: for every authenticated upload, the index upsert with `last_used = now`
has happened whatever the blob write's outcome (it precedes the write), and
when the blob write fails `handlePut` answers 500, leaves the bucket
unchanged, and the freshly upserted row for the key is still in the table. -/
theorem handlePut_upsert_before_write_and_500 (st : SysState) (req : Request)
    (nowMs : Int) (putOk : Bool)
    (hauth : (authenticated st req nowMs).1 = true) :
    (handlePut st req nowMs putOk).2.db
        = upsertCacheEntry st.db (urlToObjectName req.url) (Int.fdiv nowMs 1000)
    ∧ (handlePut st req nowMs false).1.status = 500
    ∧ (handlePut st req nowMs false).2.bucket = st.bucket
    ∧ CacheRow.mk (urlToObjectName req.url) (Int.fdiv nowMs 1000)
        ∈ (handlePut st req nowMs false).2.db := by
  refine ⟨?_, ?_, ?_, ?_⟩
  · cases putOk <;> simp [handlePut, hauth]
  · simp [handlePut, hauth]
  · simp [handlePut, hauth]
  · simp only [handlePut, hauth]
    simp
    exact mem_upsertCacheEntry st.db (urlToObjectName req.url) (Int.fdiv nowMs 1000)

/-- Witness for C5 at a concrete state: auth token "u"/"s" in the bucket,
upload of `/cas/abc` whose blob write fails. -/
theorem handlePut_upsert_before_write_and_500_witness :
    (handlePut { db := [], bucket := [("tokens/u", "s")], cache := ⟨[]⟩ }
        { method := .put, url := { scheme := "https", host := "h", pathname := "/cas/abc" },
          tokenIdHeader := some "u", tokenValueHeader := some "s", body := "hello" }
        0 false).2.db
      = upsertCacheEntry []
          (urlToObjectName { scheme := "https", host := "h", pathname := "/cas/abc" })
          (Int.fdiv 0 1000)
    ∧ (handlePut { db := [], bucket := [("tokens/u", "s")], cache := ⟨[]⟩ }
        { method := .put, url := { scheme := "https", host := "h", pathname := "/cas/abc" },
          tokenIdHeader := some "u", tokenValueHeader := some "s", body := "hello" }
        0 false).1.status = 500
    ∧ (handlePut { db := [], bucket := [("tokens/u", "s")], cache := ⟨[]⟩ }
        { method := .put, url := { scheme := "https", host := "h", pathname := "/cas/abc" },
          tokenIdHeader := some "u", tokenValueHeader := some "s", body := "hello" }
        0 false).2.bucket = [("tokens/u", "s")]
    ∧ CacheRow.mk (urlToObjectName { scheme := "https", host := "h", pathname := "/cas/abc" })
        (Int.fdiv 0 1000)
        ∈ (handlePut { db := [], bucket := [("tokens/u", "s")], cache := ⟨[]⟩ }
        { method := .put, url := { scheme := "https", host := "h", pathname := "/cas/abc" },
          tokenIdHeader := some "u", tokenValueHeader := some "s", body := "hello" }
        0 false).2.db :=
  handlePut_upsert_before_write_and_500
    { db := [], bucket := [("tokens/u", "s")], cache := ⟨[]⟩ }
    { method := .put, url := { scheme := "https", host := "h", pathname := "/cas/abc" },
      tokenIdHeader := some "u", tokenValueHeader := some "s", body := "hello" }
    0 false (by decide)

/-! ## C8: object name codec -/

/-- C8: `urlToObjectName` returns the URL's path with its single leading
separator removed and no other transformation, and depends on nothing but the
path (scheme and host are stripped). -/
theorem urlToObjectName_drops_leading_slash (u u2 : URL) (rest : String)
    (h : u.pathname = "/" ++ rest) (h2 : u2.pathname = u.pathname) :
    urlToObjectName u = rest ∧ urlToObjectName u2 = urlToObjectName u := by
  constructor
  · rw [urlToObjectName, h, string_drop_one_slash]
  · rw [urlToObjectName, urlToObjectName, h2]

/-- Witness for C8: a concrete URL, and the same path under a different
scheme and host. -/
theorem urlToObjectName_drops_leading_slash_witness :
    urlToObjectName { scheme := "https", host := "h", pathname := "/cas/abc" } = "cas/abc"
    ∧ urlToObjectName { scheme := "ftp", host := "elsewhere", pathname := "/cas/abc" }
        = urlToObjectName { scheme := "https", host := "h", pathname := "/cas/abc" } :=
  urlToObjectName_drops_leading_slash
    { scheme := "https", host := "h", pathname := "/cas/abc" }
    { scheme := "ftp", host := "elsewhere", pathname := "/cas/abc" }
    "cas/abc" rfl rfl

/-! ## C9: retrieve never creates index rows -/

/-- C9: a GET never changes the key set of the metadata index — the
`last_used` refresh is a point update `WHERE key = objKey` — and any row whose
key differs from the requested object key is untouched. -/
theorem handleGet_preserves_row_set (st : SysState) (req : Request) (nowMs : Int)
    (r : CacheRow) (hr : r ∈ st.db) (hne : r.key ≠ urlToObjectName req.url) :
    (handleGet st req nowMs).2.db.map (fun x => x.key) = st.db.map (fun x => x.key)
    ∧ r ∈ (handleGet st req nowMs).2.db := by
  cases hA : (authenticated st req nowMs).1 with
  | false =>
    simp [handleGet, hA]
    exact hr
  | true =>
    cases hB : bucketGet st.bucket (urlToObjectName req.url) with
    | none =>
      simp [handleGet, hA, hB]
      exact ⟨updateLastUsed_map_key st.db (urlToObjectName req.url) (Int.fdiv nowMs 1000),
        mem_updateLastUsed_of_ne st.db (urlToObjectName req.url) (Int.fdiv nowMs 1000) r hr hne⟩
    | some body =>
      simp [handleGet, hA, hB]
      exact ⟨updateLastUsed_map_key st.db (urlToObjectName req.url) (Int.fdiv nowMs 1000),
        mem_updateLastUsed_of_ne st.db (urlToObjectName req.url) (Int.fdiv nowMs 1000) r hr hne⟩

/-- Witness for C9: a GET of `/cas/abc` (no row for that key exists) leaves
the single-row table's key set unchanged. -/
theorem handleGet_preserves_row_set_witness :
    (handleGet
        { db := [{ key := "ac/other", last_used := 7 }],
          bucket := [("tokens/u", "s")], cache := ⟨[]⟩ }
        { method := .get, url := { scheme := "https", host := "h", pathname := "/cas/abc" },
          tokenIdHeader := some "u", tokenValueHeader := some "s", body := "" }
        0).2.db.map (fun x => x.key)
      = ([{ key := "ac/other", last_used := 7 }] : List CacheRow).map (fun x => x.key)
    ∧ CacheRow.mk "ac/other" 7 ∈ (handleGet
        { db := [{ key := "ac/other", last_used := 7 }],
          bucket := [("tokens/u", "s")], cache := ⟨[]⟩ }
        { method := .get, url := { scheme := "https", host := "h", pathname := "/cas/abc" },
          tokenIdHeader := some "u", tokenValueHeader := some "s", body := "" }
        0).2.db :=
  handleGet_preserves_row_set
    { db := [{ key := "ac/other", last_used := 7 }],
      bucket := [("tokens/u", "s")], cache := ⟨[]⟩ }
    { method := .get, url := { scheme := "https", host := "h", pathname := "/cas/abc" },
      tokenIdHeader := some "u", tokenValueHeader := some "s", body := "" }
    0 (CacheRow.mk "ac/other" 7) (by decide) (by decide)

/-! ## C10: the refresh is issued before (and regardless of) the blob fetch -/

/-- C10: an authenticated GET whose blob is absent still answers 404 AND has
applied the `last_used` refresh: the database is exactly
`updateLastUsed st.db objKey now`, so an existing (dangling) row for that key
now carries the new timestamp. -/
theorem handleGet_refreshes_on_miss (st : SysState) (req : Request) (nowMs : Int)
    (r : CacheRow)
    (hauth : (authenticated st req nowMs).1 = true)
    (hmiss : bucketGet st.bucket (urlToObjectName req.url) = none)
    (hr : r ∈ st.db) (hk : r.key = urlToObjectName req.url) :
    (handleGet st req nowMs).1.status = 404
    ∧ (handleGet st req nowMs).2.db
        = updateLastUsed st.db (urlToObjectName req.url) (Int.fdiv nowMs 1000)
    ∧ CacheRow.mk r.key (Int.fdiv nowMs 1000) ∈ (handleGet st req nowMs).2.db := by
  refine ⟨?_, ?_, ?_⟩
  · simp [handleGet, hauth, hmiss]
  · simp [handleGet, hauth, hmiss]
  · simp [handleGet, hauth, hmiss]
    exact mem_updateLastUsed_self st.db (urlToObjectName req.url) (Int.fdiv nowMs 1000) r hr hk

/-- Witness for C10: a dangling row for `ac/ghost` (no blob) has its
`last_used` advanced to the GET's time even though the GET answers 404. -/
theorem handleGet_refreshes_on_miss_witness :
    (handleGet
        { db := [{ key := "ac/ghost", last_used := 7 }],
          bucket := [("tokens/u", "s")], cache := ⟨[]⟩ }
        { method := .get, url := { scheme := "https", host := "h", pathname := "/ac/ghost" },
          tokenIdHeader := some "u", tokenValueHeader := some "s", body := "" }
        5000).1.status = 404
    ∧ (handleGet
        { db := [{ key := "ac/ghost", last_used := 7 }],
          bucket := [("tokens/u", "s")], cache := ⟨[]⟩ }
        { method := .get, url := { scheme := "https", host := "h", pathname := "/ac/ghost" },
          tokenIdHeader := some "u", tokenValueHeader := some "s", body := "" }
        5000).2.db
      = updateLastUsed [{ key := "ac/ghost", last_used := 7 }]
          (urlToObjectName { scheme := "https", host := "h", pathname := "/ac/ghost" })
          (Int.fdiv 5000 1000)
    ∧ CacheRow.mk "ac/ghost" (Int.fdiv 5000 1000) ∈ (handleGet
        { db := [{ key := "ac/ghost", last_used := 7 }],
          bucket := [("tokens/u", "s")], cache := ⟨[]⟩ }
        { method := .get, url := { scheme := "https", host := "h", pathname := "/ac/ghost" },
          tokenIdHeader := some "u", tokenValueHeader := some "s", body := "" }
        5000).2.db :=
  handleGet_refreshes_on_miss
    { db := [{ key := "ac/ghost", last_used := 7 }],
      bucket := [("tokens/u", "s")], cache := ⟨[]⟩ }
    { method := .get, url := { scheme := "https", host := "h", pathname := "/ac/ghost" },
      tokenIdHeader := some "u", tokenValueHeader := some "s", body := "" }
    5000 (CacheRow.mk "ac/ghost" 7) (by decide) (by decide) (by decide) (by decide)

/-! ## C7: upload then retrieve round-trip -/

/-- Reduction of `TokenCache.retrieve` when the id is not in the cache. -/
theorem retrieve_miss_absent (c : TokenCache) (nowMs : Int) (tokenId : String)
    (fetched : Option String) (hl : c.tokens.lookup tokenId = none) :
    c.retrieve nowMs tokenId fetched =
      { value := fetched
        cache := ⟨assocSet c.tokens tokenId
          { expiration := nowMs + (if jsTruthy fetched then POSITIVE_TTL else NEGATIVE_TTL)
            value := fetched }⟩
        invokedFetch := true } := by
  unfold TokenCache.retrieve
  rw [hl]

/-- Reduction of `TokenCache.retrieve` when the stored entry passes the
(inverted) guard `expiration < now`: the cached value is returned. -/
theorem retrieve_hit (c : TokenCache) (nowMs : Int) (tokenId : String)
    (fetched : Option String) (e : TokenEntry)
    (hl : c.tokens.lookup tokenId = some e) (hexp : e.expiration < nowMs) :
    c.retrieve nowMs tokenId fetched =
      { value := e.value, cache := c, invokedFetch := false } := by
  unfold TokenCache.retrieve
  simp only [hl]
  rw [if_pos hexp]

/-- Reduction of `TokenCache.retrieve` when the stored entry fails the guard:
the fetch function is invoked and its result stored. -/
theorem retrieve_miss_guard (c : TokenCache) (nowMs : Int) (tokenId : String)
    (fetched : Option String) (e : TokenEntry)
    (hl : c.tokens.lookup tokenId = some e) (hexp : ¬ e.expiration < nowMs) :
    c.retrieve nowMs tokenId fetched =
      { value := fetched
        cache := ⟨assocSet c.tokens tokenId
          { expiration := nowMs + (if jsTruthy fetched then POSITIVE_TTL else NEGATIVE_TTL)
            value := fetched }⟩
        invokedFetch := true } := by
  unfold TokenCache.retrieve
  simp only [hl]
  rw [if_neg hexp]

/-- If a retrieve with (pure) fetch result `f` returned `some sv`, a second
retrieve on the resulting cache, at a later time and with the same fetch
result, also returns `some sv` — whichever of the hit/miss branches each call
takes. -/
theorem retrieve_value_stable (c : TokenCache) (key : String) (now1 now2 : Int)
    (f : Option String) (sv : String)
    (hmono : now1 ≤ now2)
    (h1 : (c.retrieve now1 key f).value = some sv) :
    (((c.retrieve now1 key f).cache).retrieve now2 key f).value = some sv := by
  have second_of_written : ∀ d : TokenCache, d.tokens.lookup key =
      some { expiration := now1 + (if jsTruthy f then POSITIVE_TTL else NEGATIVE_TTL)
             value := f } → f = some sv → (d.retrieve now2 key f).value = some sv := by
    intro d hld hf
    by_cases h2 : now1 + (if jsTruthy f then POSITIVE_TTL else NEGATIVE_TTL) < now2
    · rw [retrieve_hit d now2 key f _ hld h2]
      exact hf
    · rw [retrieve_miss_guard d now2 key f _ hld h2]
      exact hf
  cases hl : c.tokens.lookup key with
  | none =>
    rw [retrieve_miss_absent c now1 key f hl] at h1 ⊢
    exact second_of_written _ (lookup_assocSet_self _ _ _) h1
  | some e =>
    by_cases hexp : e.expiration < now1
    · rw [retrieve_hit c now1 key f e hl hexp] at h1 ⊢
      rw [retrieve_hit c now2 key f e hl (lt_of_lt_of_le hexp hmono)]
      exact h1
    · rw [retrieve_miss_guard c now1 key f e hl hexp] at h1 ⊢
      exact second_of_written _ (lookup_assocSet_self _ _ _) h1

/-- Reduction of `authenticated` when both headers are present and the token
cache lookup produced a stored value. -/
theorem authenticated_some_value (st : SysState) (req : Request) (nowMs : Int)
    (id v sv : String)
    (hid : req.tokenIdHeader = some id) (hv : req.tokenValueHeader = some v)
    (hsv : (st.cache.retrieve nowMs ("tokens/" ++ id)
        (fetchFromR2 ("tokens/" ++ id) st.bucket)).value = some sv) :
    authenticated st req nowMs
      = (v == sv, (st.cache.retrieve nowMs ("tokens/" ++ id)
          (fetchFromR2 ("tokens/" ++ id) st.bucket)).cache) := by
  unfold authenticated
  rw [hid, hv]
  simp only [hsv]

/-- Reduction of `authenticated` when both headers are present but no stored
value was found. -/
theorem authenticated_none_value (st : SysState) (req : Request) (nowMs : Int)
    (id v : String)
    (hid : req.tokenIdHeader = some id) (hv : req.tokenValueHeader = some v)
    (hsv : (st.cache.retrieve nowMs ("tokens/" ++ id)
        (fetchFromR2 ("tokens/" ++ id) st.bucket)).value = none) :
    authenticated st req nowMs
      = (false, (st.cache.retrieve nowMs ("tokens/" ++ id)
          (fetchFromR2 ("tokens/" ++ id) st.bucket)).cache) := by
  unfold authenticated
  rw [hid, hv]
  simp only [hsv]

/-- C7: an authenticated upload of key `k` (blob write succeeding) answers
201, and an immediately following retrieve of the same key answers 200 with
exactly the uploaded body. -/
theorem upload_then_retrieve (st : SysState) (req : Request) (now1 now2 : Int)
    (id v k : String)
    (hid : req.tokenIdHeader = some id)
    (hv : req.tokenValueHeader = some v)
    (hpath : req.url.pathname = "/" ++ k)
    (hk : k ≠ "tokens/" ++ id)
    (hmono : now1 ≤ now2)
    (hauth : (authenticated st req now1).1 = true) :
    (handlePut st req now1 true).1.status = 201
    ∧ (handleGet (handlePut st req now1 true).2 req now2).1
        = { status := 200, body := some req.body } := by
  have hobj : urlToObjectName req.url = k := by
    rw [urlToObjectName, hpath, string_drop_one_slash]
  rcases hsv : (st.cache.retrieve now1 ("tokens/" ++ id)
      (fetchFromR2 ("tokens/" ++ id) st.bucket)).value with _ | sv
  · rw [authenticated_none_value st req now1 id v hid hv hsv] at hauth
    simp at hauth
  · have hvsv : (v == sv) = true := by
      rw [authenticated_some_value st req now1 id v sv hid hv hsv] at hauth
      exact hauth
    have hstatus : (handlePut st req now1 true).1.status = 201 := by
      simp [handlePut, hauth]
    have hst1 : (handlePut st req now1 true).2 =
        { db := upsertCacheEntry st.db k (Int.fdiv now1 1000)
          bucket := bucketPut st.bucket k req.body
          cache := (authenticated st req now1).2 } := by
      simp [handlePut, hauth, hobj]
    have hcache1 : (authenticated st req now1).2
        = (st.cache.retrieve now1 ("tokens/" ++ id)
            (fetchFromR2 ("tokens/" ++ id) st.bucket)).cache := by
      rw [authenticated_some_value st req now1 id v sv hid hv hsv]
    have hfetch : fetchFromR2 ("tokens/" ++ id) (bucketPut st.bucket k req.body)
        = fetchFromR2 ("tokens/" ++ id) st.bucket := by
      unfold fetchFromR2 bucketGet bucketPut
      exact lookup_assocSet_ne st.bucket k ("tokens/" ++ id) req.body (Ne.symm hk)
    have hval2 : (((st.cache.retrieve now1 ("tokens/" ++ id)
        (fetchFromR2 ("tokens/" ++ id) st.bucket)).cache).retrieve
        now2 ("tokens/" ++ id) (fetchFromR2 ("tokens/" ++ id) st.bucket)).value = some sv :=
      retrieve_value_stable st.cache ("tokens/" ++ id) now1 now2 _ sv hmono hsv
    have hsv2 : (((authenticated st req now1).2).retrieve now2 ("tokens/" ++ id)
        (fetchFromR2 ("tokens/" ++ id) (bucketPut st.bucket k req.body))).value = some sv := by
      rw [hcache1, hfetch]
      exact hval2
    have hauth2 : (authenticated
        { db := upsertCacheEntry st.db k (Int.fdiv now1 1000)
          bucket := bucketPut st.bucket k req.body
          cache := (authenticated st req now1).2 } req now2).1 = true := by
      rw [authenticated_some_value _ req now2 id v sv hid hv hsv2]
      exact hvsv
    have hbg : bucketGet (bucketPut st.bucket k req.body) k = some req.body := by
      unfold bucketGet bucketPut
      exact lookup_assocSet_self st.bucket k req.body
    refine ⟨hstatus, ?_⟩
    rw [hst1]
    simp [handleGet, hauth2, hobj, hbg]

/-! ## Sweeper lemmas (C2, C6) -/

/-- Rows of a key-sorted table are determined by their key (the PRIMARY KEY
uniqueness). -/
theorem row_eq_of_key_eq (db : List CacheRow)
    (hp : db.Pairwise (fun a b => a.key < b.key)) :
    ∀ r ∈ db, ∀ s ∈ db, r.key = s.key → r = s := by
  induction db with
  | nil => simp
  | cons a t ih =>
    intro r hr s hsm hk
    rcases List.mem_cons.mp hr with rfl | hr2 <;> rcases List.mem_cons.mp hsm with rfl | hs2
    · rfl
    · have hlt := (List.pairwise_cons.mp hp).1 s hs2
      rw [hk] at hlt
      exact absurd hlt (lt_irrefl _)
    · have hlt := (List.pairwise_cons.mp hp).1 r hr2
      rw [hk] at hlt
      exact absurd hlt (lt_irrefl _)
    · exact ih (List.pairwise_cons.mp hp).2 r hr2 s hs2 hk

/-- In a strictly ascending list of strings, the last element is the maximum. -/
theorem getLast_max (l : List String) (hl : l.Pairwise (fun a b => a < b)) (h : l ≠ []) :
    ∀ x ∈ l, x ≤ l.getLast h := by
  induction l with
  | nil => exact absurd rfl h
  | cons a t ih =>
    intro x hx
    cases t with
    | nil =>
      have hxa : x = a := by simpa using hx
      subst hxa
      exact le_refl x
    | cons b t2 =>
      rw [List.getLast_cons_cons]
      rcases List.mem_cons.mp hx with rfl | hx2
      · have hlt : ∀ y ∈ b :: t2, x < y := (List.pairwise_cons.mp hl).1
        exact le_of_lt (hlt _ (List.getLast_mem _))
      · exact ih (List.pairwise_cons.mp hl).2 (by simp) x hx2

/-- The batch is the key image of the first `STALE_OBJECT_BATCH_SIZE` matching
rows. -/
theorem nextStaleBatch_eq (db : List CacheRow) (marker : String) (staleTime : Int) :
    nextStaleBatch db marker staleTime
      = ((db.filter (isStaleMatch marker staleTime)).take STALE_OBJECT_BATCH_SIZE).map
          (fun r => r.key) := by
  unfold nextStaleBatch
  rw [List.map_take]

/-- The full matching key list splits as first batch plus the rest. -/
theorem staleKeysAfter_split (db : List CacheRow) (marker : String) (staleTime : Int) :
    staleKeysAfter db marker staleTime
      = nextStaleBatch db marker staleTime
        ++ ((db.filter (isStaleMatch marker staleTime)).drop STALE_OBJECT_BATCH_SIZE).map
            (fun r => r.key) := by
  rw [nextStaleBatch_eq, List.map_take, List.map_drop]
  unfold staleKeysAfter
  rw [List.take_append_drop]

/-- Deleting no keys is the identity on the bucket. -/
theorem bucketDelete_nil (b : Bucket) : bucketDelete b [] = b := by
  unfold bucketDelete
  simp

/-- Two successive bucket deletes are one delete of the concatenated key
list. -/
theorem bucketDelete_bucketDelete (b : Bucket) (l1 l2 : List String) :
    bucketDelete (bucketDelete b l1) l2 = bucketDelete b (l1 ++ l2) := by
  unfold bucketDelete
  rw [List.filter_filter]
  apply List.filter_congr
  intro p _
  simp [List.elem_eq_mem]
  exact Bool.and_comm _ _

/-- A non-empty batch strictly shrinks the table when deleted. -/
theorem deleteKeys_shrinks (db : List CacheRow) (marker : String) (staleTime : Int)
    (hb : nextStaleBatch db marker staleTime ≠ []) :
    (deleteKeysFromDB db (nextStaleBatch db marker staleTime)).length < db.length := by
  unfold deleteKeysFromDB
  rw [List.length_filter_lt_length_iff_exists]
  obtain ⟨kk, hk⟩ := List.exists_mem_of_ne_nil _ hb
  have hk2 : kk ∈ (db.filter (isStaleMatch marker staleTime)).map (fun r => r.key) :=
    List.mem_of_mem_take hk
  obtain ⟨r, hrF, hrk⟩ := List.mem_map.mp hk2
  refine ⟨r, (List.mem_filter.mp hrF).1, ?_⟩
  simp [List.elem_eq_mem]
  rw [hrk]
  exact hk

/-- The WHERE clause in propositional form. -/
theorem isStaleMatch_eq_true_iff (m : String) (t : Int) (r : CacheRow) :
    isStaleMatch m t r = true ↔ m < r.key ∧ r.last_used ≤ t := by
  unfold isStaleMatch
  simp

/-- One sweep iteration on a key-sorted table: after deleting the batch and
advancing the marker to its last (greatest) key, (a) the rows that survive the
whole remaining scan are the same as before the iteration, and (b) the keys
still matching the query are exactly the matching rows beyond the batch. -/
theorem sweep_step (db : List CacheRow) (marker m2 : String) (staleTime : Int)
    (hp : db.Pairwise (fun a b => a.key < b.key))
    (hne : nextStaleBatch db marker staleTime ≠ [])
    (hm2 : m2 = (nextStaleBatch db marker staleTime).getLast hne) :
    (deleteKeysFromDB db (nextStaleBatch db marker staleTime)).filter
        (fun r => !(isStaleMatch m2 staleTime r))
      = db.filter (fun r => !(isStaleMatch marker staleTime r))
    ∧ staleKeysAfter (deleteKeysFromDB db (nextStaleBatch db marker staleTime)) m2 staleTime
      = ((db.filter (isStaleMatch marker staleTime)).drop STALE_OBJECT_BATCH_SIZE).map
          (fun r => r.key) := by
  have hFmatch : ∀ r ∈ db.filter (isStaleMatch marker staleTime),
      marker < r.key ∧ r.last_used ≤ staleTime := by
    intro r hr
    exact (isStaleMatch_eq_true_iff _ _ _).mp (List.mem_filter.mp hr).2
  have hFp : (db.filter (isStaleMatch marker staleTime)).Pairwise
      (fun a b => a.key < b.key) := hp.filter _
  have hTp : ((db.filter (isStaleMatch marker staleTime)).take
      STALE_OBJECT_BATCH_SIZE).Pairwise (fun a b => a.key < b.key) :=
    List.Pairwise.sublist (List.take_sublist _ _) hFp
  have hcross : ∀ a ∈ (db.filter (isStaleMatch marker staleTime)).take
      STALE_OBJECT_BATCH_SIZE, ∀ b2 ∈ (db.filter (isStaleMatch marker staleTime)).drop
      STALE_OBJECT_BATCH_SIZE, a.key < b2.key := by
    have h2 := hFp
    rw [← List.take_append_drop STALE_OBJECT_BATCH_SIZE
      (db.filter (isStaleMatch marker staleTime))] at h2
    exact (List.pairwise_append.mp h2).2.2
  have hbatchp : (nextStaleBatch db marker staleTime).Pairwise (fun a b => a < b) := by
    rw [nextStaleBatch_eq]
    exact List.pairwise_map.mpr hTp
  have hm2mem : m2 ∈ nextStaleBatch db marker staleTime := hm2 ▸ List.getLast_mem hne
  have hm2T : ∃ rM ∈ (db.filter (isStaleMatch marker staleTime)).take
      STALE_OBJECT_BATCH_SIZE, rM.key = m2 := by
    rw [nextStaleBatch_eq] at hm2mem
    exact List.mem_map.mp hm2mem
  obtain ⟨rM, hrMT, hrMk⟩ := hm2T
  have hmax : ∀ x ∈ nextStaleBatch db marker staleTime, x ≤ m2 := by
    rw [hm2]
    exact getLast_max _ hbatchp hne
  have hT_le : ∀ r ∈ (db.filter (isStaleMatch marker staleTime)).take
      STALE_OBJECT_BATCH_SIZE, r.key ≤ m2 := by
    intro r hr
    apply hmax
    rw [nextStaleBatch_eq]
    exact List.mem_map_of_mem _ hr
  have hD_gt : ∀ r ∈ (db.filter (isStaleMatch marker staleTime)).drop
      STALE_OBJECT_BATCH_SIZE, m2 < r.key := by
    intro r hr
    rw [← hrMk]
    exact hcross rM hrMT r hr
  have hmarker_m2 : marker < m2 := by
    rw [← hrMk]
    exact (hFmatch rM (List.mem_of_mem_take hrMT)).1
  have hcont : ∀ r ∈ db, ((nextStaleBatch db marker staleTime).contains r.key = true
      ↔ r ∈ (db.filter (isStaleMatch marker staleTime)).take STALE_OBJECT_BATCH_SIZE) := by
    intro r hrdb
    constructor
    · intro hc
      have hmem : r.key ∈ nextStaleBatch db marker staleTime := by
        simpa [List.elem_eq_mem] using hc
      rw [nextStaleBatch_eq] at hmem
      obtain ⟨s, hsT, hsk⟩ := List.mem_map.mp hmem
      have hsdb : s ∈ db := (List.mem_filter.mp (List.mem_of_mem_take hsT)).1
      have hrs : r = s := row_eq_of_key_eq db hp r hrdb s hsdb hsk.symm
      rw [hrs]
      exact hsT
    · intro hrT
      have hmem : r.key ∈ nextStaleBatch db marker staleTime := by
        rw [nextStaleBatch_eq]
        exact List.mem_map_of_mem _ hrT
      simpa [List.elem_eq_mem] using hmem
  have hDmem : ∀ r ∈ db, r ∈ db.filter (isStaleMatch marker staleTime) →
      r ∉ (db.filter (isStaleMatch marker staleTime)).take STALE_OBJECT_BATCH_SIZE →
      r ∈ (db.filter (isStaleMatch marker staleTime)).drop STALE_OBJECT_BATCH_SIZE := by
    intro r _ hrF hrT
    have h2 := hrF
    rw [← List.take_append_drop STALE_OBJECT_BATCH_SIZE
      (db.filter (isStaleMatch marker staleTime))] at h2
    rcases List.mem_append.mp h2 with h1 | h1
    · exact absurd h1 hrT
    · exact h1
  constructor
  · unfold deleteKeysFromDB
    rw [List.filter_filter]
    apply List.filter_congr
    intro r hrdb
    by_cases hrT : r ∈ (db.filter (isStaleMatch marker staleTime)).take
        STALE_OBJECT_BATCH_SIZE
    · have hc : (nextStaleBatch db marker staleTime).contains r.key = true :=
        (hcont r hrdb).mpr hrT
      have hPm : isStaleMatch marker staleTime r = true :=
        (List.mem_filter.mp (List.mem_of_mem_take hrT)).2
      rw [hc, hPm]
      simp
    · by_cases hPm : isStaleMatch marker staleTime r = true
      · have hrF : r ∈ db.filter (isStaleMatch marker staleTime) :=
          List.mem_filter.mpr ⟨hrdb, hPm⟩
        have hrD : r ∈ (db.filter (isStaleMatch marker staleTime)).drop
            STALE_OBJECT_BATCH_SIZE := hDmem r hrdb hrF hrT
        have hc : (nextStaleBatch db marker staleTime).contains r.key = false := by
          cases hcc : (nextStaleBatch db marker staleTime).contains r.key
          · rfl
          · exact absurd ((hcont r hrdb).mp hcc) hrT
        have hm2m : isStaleMatch m2 staleTime r = true :=
          (isStaleMatch_eq_true_iff _ _ _).mpr
            ⟨hD_gt r hrD, ((isStaleMatch_eq_true_iff _ _ _).mp hPm).2⟩
        rw [hc, hm2m, hPm]
        simp
      · have hPm2 : isStaleMatch marker staleTime r = false := by
          simpa using hPm
        have hc : (nextStaleBatch db marker staleTime).contains r.key = false := by
          cases hcc : (nextStaleBatch db marker staleTime).contains r.key
          · rfl
          · have hrT2 := (hcont r hrdb).mp hcc
            exact absurd hrT2 hrT
        have hm2m : isStaleMatch m2 staleTime r = false := by
          by_contra hcon
          have h2 : isStaleMatch m2 staleTime r = true := by
            simpa using hcon
          obtain ⟨hlt2, hle2⟩ := (isStaleMatch_eq_true_iff _ _ _).mp h2
          exact hPm ((isStaleMatch_eq_true_iff _ _ _).mpr
            ⟨lt_trans hmarker_m2 hlt2, hle2⟩)
        rw [hc, hm2m, hPm2]
        simp
  · unfold staleKeysAfter deleteKeysFromDB
    rw [List.filter_filter]
    have hstep1 : db.filter (fun r => isStaleMatch m2 staleTime r
        && !((nextStaleBatch db marker staleTime).contains r.key))
        = db.filter (fun r => isStaleMatch m2 staleTime r
            && isStaleMatch marker staleTime r) := by
      apply List.filter_congr
      intro r hrdb
      cases hm2r : isStaleMatch m2 staleTime r
      · simp
      · obtain ⟨hlt2, hle2⟩ := (isStaleMatch_eq_true_iff _ _ _).mp hm2r
        have hPm : isStaleMatch marker staleTime r = true :=
          (isStaleMatch_eq_true_iff _ _ _).mpr ⟨lt_trans hmarker_m2 hlt2, hle2⟩
        have hnT : r ∉ (db.filter (isStaleMatch marker staleTime)).take
            STALE_OBJECT_BATCH_SIZE := by
          intro hrT
          exact absurd hlt2 (not_lt.mpr (hT_le r hrT))
        have hc : (nextStaleBatch db marker staleTime).contains r.key = false := by
          cases hcc : (nextStaleBatch db marker staleTime).contains r.key
          · rfl
          · exact absurd ((hcont r hrdb).mp hcc) hnT
        rw [hc, hPm]
        simp
    rw [hstep1, ← List.filter_filter]
    have h1 : ((db.filter (isStaleMatch marker staleTime)).take
        STALE_OBJECT_BATCH_SIZE).filter (isStaleMatch m2 staleTime) = [] := by
      apply List.filter_eq_nil_iff.mpr
      intro r hrT hm2r
      obtain ⟨hlt2, _⟩ := (isStaleMatch_eq_true_iff _ _ _).mp hm2r
      exact absurd hlt2 (not_lt.mpr (hT_le r hrT))
    have h2 : ((db.filter (isStaleMatch marker staleTime)).drop
        STALE_OBJECT_BATCH_SIZE).filter (isStaleMatch m2 staleTime)
        = (db.filter (isStaleMatch marker staleTime)).drop STALE_OBJECT_BATCH_SIZE := by
      apply List.filter_eq_self.mpr
      intro r hrD
      exact (isStaleMatch_eq_true_iff _ _ _).mpr
        ⟨hD_gt r hrD, (hFmatch r (List.mem_of_mem_drop hrD)).2⟩
    conv_lhs => rw [← List.take_append_drop STALE_OBJECT_BATCH_SIZE
      (db.filter (isStaleMatch marker staleTime))]
    rw [List.filter_append, h1, h2, List.nil_append]

/-- Closed form of the sweep loop when every fire-and-forget bucket delete
succeeds: on a key-sorted table whose length bounds the fuel, the loop reaches
the empty-batch exit having deleted exactly the matching rows from the table
and exactly their keys from the bucket. -/
theorem sweepLoop_allOk (fuel : Nat) :
    ∀ (db : List CacheRow) (bucket : Bucket) (marker : String) (staleTime : Int)
      (i : Nat), db.length < fuel →
      db.Pairwise (fun a b => a.key < b.key) →
      sweepLoop fuel db bucket marker staleTime (fun _ => true) i
        = (db.filter (fun r => !(isStaleMatch marker staleTime r)),
           bucketDelete bucket (staleKeysAfter db marker staleTime)) := by
  induction fuel with
  | zero =>
    intro db _ _ _ _ hlen _
    exact absurd hlen (Nat.not_lt_zero _)
  | succ f ih =>
    intro db bucket marker staleTime i hlen hp
    have hunfold : sweepLoop (f + 1) db bucket marker staleTime (fun _ => true) i
        = if h : nextStaleBatch db marker staleTime = [] then (db, bucket)
          else sweepLoop f (deleteKeysFromDB db (nextStaleBatch db marker staleTime))
            (bucketDelete bucket (nextStaleBatch db marker staleTime))
            ((nextStaleBatch db marker staleTime).getLast h) staleTime
            (fun _ => true) (i + 1) := rfl
    rw [hunfold]
    by_cases hb : nextStaleBatch db marker staleTime = []
    · rw [dif_pos hb]
      have hF : db.filter (isStaleMatch marker staleTime) = [] := by
        have hb2 := hb
        unfold nextStaleBatch at hb2
        rcases List.take_eq_nil_iff.mp hb2 with h100 | hmap
        · exact absurd h100 (by decide)
        · exact List.map_eq_nil_iff.mp hmap
      have hnone := List.filter_eq_nil_iff.mp hF
      refine Prod.ext ?_ ?_
      · exact (List.filter_eq_self.mpr (fun r hr => by simpa using hnone r hr)).symm
      · have h0 : staleKeysAfter db marker staleTime = [] := by
          unfold staleKeysAfter
          rw [hF]
          rfl
        rw [h0, bucketDelete_nil]
    · rw [dif_neg hb]
      have hlen2 : (deleteKeysFromDB db (nextStaleBatch db marker staleTime)).length < f := by
        have := deleteKeys_shrinks db marker staleTime hb
        omega
      rw [ih (deleteKeysFromDB db (nextStaleBatch db marker staleTime))
        (bucketDelete bucket (nextStaleBatch db marker staleTime))
        ((nextStaleBatch db marker staleTime).getLast hb) staleTime (i + 1)
        hlen2 (hp.filter _)]
      obtain ⟨hs1, hs2⟩ := sweep_step db marker
        ((nextStaleBatch db marker staleTime).getLast hb) staleTime hp hb rfl
      rw [hs1, hs2, bucketDelete_bucketDelete, ← staleKeysAfter_split]

/-- The loop never grows the table. -/
theorem sweepLoop_fst_length_le (fuel : Nat) :
    ∀ (db : List CacheRow) (bucket : Bucket) (marker : String) (staleTime : Int)
      (delOk : Nat → Bool) (i : Nat),
      (sweepLoop fuel db bucket marker staleTime delOk i).1.length ≤ db.length := by
  induction fuel with
  | zero =>
    intro db bucket marker staleTime delOk i
    exact Nat.le_refl _
  | succ f ih =>
    intro db bucket marker staleTime delOk i
    have hunfold : sweepLoop (f + 1) db bucket marker staleTime delOk i
        = if h : nextStaleBatch db marker staleTime = [] then (db, bucket)
          else sweepLoop f (deleteKeysFromDB db (nextStaleBatch db marker staleTime))
            (if delOk i then bucketDelete bucket (nextStaleBatch db marker staleTime)
             else bucket)
            ((nextStaleBatch db marker staleTime).getLast h) staleTime delOk (i + 1) := rfl
    rw [hunfold]
    by_cases hb : nextStaleBatch db marker staleTime = []
    · rw [dif_pos hb]
    · rw [dif_neg hb]
      calc (sweepLoop f (deleteKeysFromDB db (nextStaleBatch db marker staleTime))
            (if delOk i then bucketDelete bucket (nextStaleBatch db marker staleTime)
             else bucket)
            ((nextStaleBatch db marker staleTime).getLast hb) staleTime delOk
            (i + 1)).1.length
          ≤ (deleteKeysFromDB db (nextStaleBatch db marker staleTime)).length := ih _ _ _ _ _ _
        _ ≤ db.length := List.length_filter_le _ db

/-! ## C2: the sweeper's cursor-paginated scan -/

/-- C2: on a key-sorted table, one scan query returns at most
`STALE_OBJECT_BATCH_SIZE` keys; each returned key satisfies `key > marker` and
belongs to a row with `last_used <= staleTime`; the batch is in ascending key
order; its last element is its lexicographic maximum (the value the marker is
advanced to); and the loop returns the state unchanged exactly when the query
returns zero rows. -/
theorem sweeper_scan_spec (db : List CacheRow) (bucket : Bucket) (marker : String)
    (staleTime : Int) (delOk : Nat → Bool) (i : Nat) (st : SysState) (nowMs2 : Int)
    (hp : db.Pairwise (fun a b => a.key < b.key)) :
    (nextStaleBatch db marker staleTime).length ≤ STALE_OBJECT_BATCH_SIZE
    ∧ (∀ kk ∈ nextStaleBatch db marker staleTime,
        marker < kk ∧ ∃ r ∈ db, r.key = kk ∧ r.last_used ≤ staleTime)
    ∧ (nextStaleBatch db marker staleTime).Pairwise (fun a b => a < b)
    ∧ (∀ hne : nextStaleBatch db marker staleTime ≠ [],
        ∀ kk ∈ nextStaleBatch db marker staleTime,
          kk ≤ (nextStaleBatch db marker staleTime).getLast hne)
    ∧ (sweepLoop (db.length + 1) db bucket marker staleTime delOk i = (db, bucket)
        ↔ nextStaleBatch db marker staleTime = [])
    ∧ scheduled st nowMs2 delOk
        = { db := (sweepLoop (st.db.length + 1) st.db st.bucket ""
                (Int.fdiv nowMs2 1000 - STALENESS_THRESHOLD) delOk 0).1
            bucket := (sweepLoop (st.db.length + 1) st.db st.bucket ""
                (Int.fdiv nowMs2 1000 - STALENESS_THRESHOLD) delOk 0).2
            cache := st.cache } := by
  have hFp : (db.filter (isStaleMatch marker staleTime)).Pairwise
      (fun a b => a.key < b.key) := hp.filter _
  have hbatchp : (nextStaleBatch db marker staleTime).Pairwise (fun a b => a < b) := by
    rw [nextStaleBatch_eq]
    exact List.pairwise_map.mpr (List.Pairwise.sublist (List.take_sublist _ _) hFp)
  refine ⟨?_, ?_, hbatchp, ?_, ⟨?_, ?_⟩, rfl⟩
  · unfold nextStaleBatch
    rw [List.length_take]
    exact Nat.min_le_left _ _
  · intro kk hk
    have hk2 : kk ∈ (db.filter (isStaleMatch marker staleTime)).map (fun r => r.key) :=
      List.mem_of_mem_take hk
    obtain ⟨r, hrF, hrk⟩ := List.mem_map.mp hk2
    obtain ⟨hrdb, hmatch⟩ := List.mem_filter.mp hrF
    obtain ⟨hlt, hle⟩ := (isStaleMatch_eq_true_iff _ _ _).mp hmatch
    exact ⟨hrk ▸ hlt, r, hrdb, hrk, hle⟩
  · intro hne kk hk
    exact getLast_max _ hbatchp hne kk hk
  · intro heq
    by_contra hb
    have hunfold : sweepLoop (db.length + 1) db bucket marker staleTime delOk i
        = sweepLoop db.length (deleteKeysFromDB db (nextStaleBatch db marker staleTime))
            (if delOk i then bucketDelete bucket (nextStaleBatch db marker staleTime)
             else bucket)
            ((nextStaleBatch db marker staleTime).getLast hb) staleTime delOk (i + 1) := by
      have h0 : sweepLoop (db.length + 1) db bucket marker staleTime delOk i
          = if h : nextStaleBatch db marker staleTime = [] then (db, bucket)
            else sweepLoop db.length
              (deleteKeysFromDB db (nextStaleBatch db marker staleTime))
              (if delOk i then bucketDelete bucket (nextStaleBatch db marker staleTime)
               else bucket)
              ((nextStaleBatch db marker staleTime).getLast h) staleTime delOk (i + 1) := rfl
      rw [h0, dif_neg hb]
    rw [hunfold] at heq
    have h1 := sweepLoop_fst_length_le db.length
      (deleteKeysFromDB db (nextStaleBatch db marker staleTime))
      (if delOk i then bucketDelete bucket (nextStaleBatch db marker staleTime) else bucket)
      ((nextStaleBatch db marker staleTime).getLast hb) staleTime delOk (i + 1)
    rw [heq] at h1
    have h2 := deleteKeys_shrinks db marker staleTime hb
    exact absurd (Nat.lt_of_le_of_lt h1 h2) (Nat.lt_irrefl _)
  · intro hb
    have h0 : sweepLoop (db.length + 1) db bucket marker staleTime delOk i
        = if h : nextStaleBatch db marker staleTime = [] then (db, bucket)
          else sweepLoop db.length
            (deleteKeysFromDB db (nextStaleBatch db marker staleTime))
            (if delOk i then bucketDelete bucket (nextStaleBatch db marker staleTime)
             else bucket)
            ((nextStaleBatch db marker staleTime).getLast h) staleTime delOk (i + 1) := rfl
    rw [h0, dif_pos hb]

/-- Witness for C2 on a concrete two-row table (one stale row "ac/a"). -/
theorem sweeper_scan_spec_witness :
    (nextStaleBatch [{ key := "ac/a", last_used := 0 }, { key := "ac/b", last_used := 99 }]
        "" 10).length ≤ STALE_OBJECT_BATCH_SIZE
    ∧ (∀ kk ∈ nextStaleBatch [{ key := "ac/a", last_used := 0 },
          { key := "ac/b", last_used := 99 }] "" 10,
        "" < kk ∧ ∃ r ∈ [({ key := "ac/a", last_used := 0 } : CacheRow),
          { key := "ac/b", last_used := 99 }], r.key = kk ∧ r.last_used ≤ 10)
    ∧ (nextStaleBatch [{ key := "ac/a", last_used := 0 }, { key := "ac/b", last_used := 99 }]
        "" 10).Pairwise (fun a b => a < b)
    ∧ (∀ hne : nextStaleBatch [{ key := "ac/a", last_used := 0 },
          { key := "ac/b", last_used := 99 }] "" 10 ≠ [],
        ∀ kk ∈ nextStaleBatch [{ key := "ac/a", last_used := 0 },
          { key := "ac/b", last_used := 99 }] "" 10,
          kk ≤ (nextStaleBatch [{ key := "ac/a", last_used := 0 },
            { key := "ac/b", last_used := 99 }] "" 10).getLast hne)
    ∧ (sweepLoop ([({ key := "ac/a", last_used := 0 } : CacheRow),
          { key := "ac/b", last_used := 99 }].length + 1)
        [{ key := "ac/a", last_used := 0 }, { key := "ac/b", last_used := 99 }]
        [] "" 10 (fun _ => true) 0
        = ([{ key := "ac/a", last_used := 0 }, { key := "ac/b", last_used := 99 }], [])
        ↔ nextStaleBatch [{ key := "ac/a", last_used := 0 },
            { key := "ac/b", last_used := 99 }] "" 10 = [])
    ∧ scheduled { db := [], bucket := [], cache := ⟨[]⟩ } 0 (fun _ => true)
        = { db := (sweepLoop (([] : List CacheRow).length + 1) [] [] ""
                (Int.fdiv 0 1000 - STALENESS_THRESHOLD) (fun _ => true) 0).1
            bucket := (sweepLoop (([] : List CacheRow).length + 1) [] [] ""
                (Int.fdiv 0 1000 - STALENESS_THRESHOLD) (fun _ => true) 0).2
            cache := ⟨[]⟩ } :=
  sweeper_scan_spec
    [{ key := "ac/a", last_used := 0 }, { key := "ac/b", last_used := 99 }]
    [] "" 10 (fun _ => true) 0 { db := [], bucket := [], cache := ⟨[]⟩ } 0 (by decide)

/-! ## C6: sweep completeness and frame -/

/-- C6: one sweep invocation on a key-sorted table (every key non-empty, as
`/ac/` and `/cas/` keys are) removes exactly the stale rows — those with
`last_used <= now - STALENESS_THRESHOLD` — and exactly their blobs, leaving
every fresh row and every other blob unchanged, across as many internal
batches as it takes. -/
theorem sweep_completeness (st : SysState) (nowMs : Int)
    (hp : st.db.Pairwise (fun a b => a.key < b.key))
    (hpos : ∀ r ∈ st.db, "" < r.key) :
    scheduled st nowMs (fun _ => true)
      = { db := st.db.filter
            (fun r => !(decide (r.last_used ≤ Int.fdiv nowMs 1000 - STALENESS_THRESHOLD)))
          bucket := bucketDelete st.bucket
            ((st.db.filter
              (fun r => decide (r.last_used ≤ Int.fdiv nowMs 1000 - STALENESS_THRESHOLD))).map
              (fun r => r.key))
          cache := st.cache } := by
  have hemp : ∀ r ∈ st.db,
      isStaleMatch "" (Int.fdiv nowMs 1000 - STALENESS_THRESHOLD) r
        = decide (r.last_used ≤ Int.fdiv nowMs 1000 - STALENESS_THRESHOLD) := by
    intro r hr
    unfold isStaleMatch
    simp [hpos r hr]
  have h1 : st.db.filter
      (fun r => !(isStaleMatch "" (Int.fdiv nowMs 1000 - STALENESS_THRESHOLD) r))
      = st.db.filter
        (fun r => !(decide (r.last_used ≤ Int.fdiv nowMs 1000 - STALENESS_THRESHOLD))) :=
    List.filter_congr (fun r hr => by rw [hemp r hr])
  have h2 : staleKeysAfter st.db "" (Int.fdiv nowMs 1000 - STALENESS_THRESHOLD)
      = (st.db.filter
          (fun r => decide (r.last_used ≤ Int.fdiv nowMs 1000 - STALENESS_THRESHOLD))).map
          (fun r => r.key) := by
    unfold staleKeysAfter
    rw [List.filter_congr hemp]
  have hsch : scheduled st nowMs (fun _ => true)
      = { db := (sweepLoop (st.db.length + 1) st.db st.bucket ""
              (Int.fdiv nowMs 1000 - STALENESS_THRESHOLD) (fun _ => true) 0).1
          bucket := (sweepLoop (st.db.length + 1) st.db st.bucket ""
              (Int.fdiv nowMs 1000 - STALENESS_THRESHOLD) (fun _ => true) 0).2
          cache := st.cache } := rfl
  rw [hsch, sweepLoop_allOk (st.db.length + 1) st.db st.bucket ""
    (Int.fdiv nowMs 1000 - STALENESS_THRESHOLD) 0 (by omega) hp]
  rw [SysState.mk.injEq]
  exact ⟨h1, congrArg (bucketDelete st.bucket) h2, rfl⟩

/-- Witness for C6: two stale rows (one beyond where a tiny batch would stop)
and one fresh row, with matching blobs plus a token blob; the sweep removes
exactly the stale rows and blobs. -/
theorem sweep_completeness_witness :
    scheduled
        { db := [{ key := "ac/a", last_used := 0 }, { key := "ac/b", last_used := 999999999 },
            { key := "cas/c", last_used := 5 }],
          bucket := [("ac/a", "1"), ("ac/b", "2"), ("cas/c", "3"), ("tokens/u", "s")],
          cache := ⟨[]⟩ }
        1209610000 (fun _ => true)
      = { db := [({ key := "ac/a", last_used := 0 } : CacheRow),
            { key := "ac/b", last_used := 999999999 },
            { key := "cas/c", last_used := 5 }].filter
            (fun r => !(decide (r.last_used ≤ Int.fdiv 1209610000 1000 - STALENESS_THRESHOLD)))
          bucket := bucketDelete [("ac/a", "1"), ("ac/b", "2"), ("cas/c", "3"), ("tokens/u", "s")]
            (([({ key := "ac/a", last_used := 0 } : CacheRow),
              { key := "ac/b", last_used := 999999999 },
              { key := "cas/c", last_used := 5 }].filter
              (fun r => decide (r.last_used ≤ Int.fdiv 1209610000 1000 - STALENESS_THRESHOLD))).map
              (fun r => r.key))
          cache := ⟨[]⟩ } :=
  sweep_completeness
    { db := [{ key := "ac/a", last_used := 0 }, { key := "ac/b", last_used := 999999999 },
        { key := "cas/c", last_used := 5 }],
      bucket := [("ac/a", "1"), ("ac/b", "2"), ("cas/c", "3"), ("tokens/u", "s")],
      cache := ⟨[]⟩ }
    1209610000 (by decide) (by decide)

/-! ## C3: sweeper delete ordering and failure semantics -/

/-- C3: the claim says the Blob Store delete completes before the index rows
are deleted and that a Blob Store delete failure aborts the sweep invocation.
In the source the `env.BUCKET.delete(keys)` promise is not awaited, so its
failure is ignored: evaluating a sweep whose bucket delete fails (all
`delOk i = false`) on two stale rows with their blobs shows the index rows
are deleted anyway while both blobs survive — the sweep did not abort, and
the index delete was not preceded by a completed blob delete. -/
theorem sweep_ignores_bucket_delete_failure :
    scheduled { db := [{ key := "ac/a", last_used := 0 }, { key := "ac/b", last_used := 0 }],
                bucket := [("ac/a", "x"), ("ac/b", "y")], cache := ⟨[]⟩ }
      1209601000 (fun _ => false)
      = { db := [], bucket := [("ac/a", "x"), ("ac/b", "y")], cache := ⟨[]⟩ } := by
  decide

/-! ## C1: the superset invariant -/

/-- C1: a state reachable through an authenticated upload followed by a sweep
whose fire-and-forget bucket delete fails has the blob `cas/abc` physically
present with no metadata row — a lasting violation of the superset invariant
(not one of §4's transient windows), caused by the un-awaited
`env.BUCKET.delete(keys)` whose failure does not stop `deleteKeysFromDB`. -/
theorem superset_invariant_violated :
    ∃ st : SysState, Reachable st ∧ bucketKeyUnindexed st "cas/abc" := by
  refine ⟨applyOp (applyOp
      { db := [], bucket := [("tokens/squirrel", "many buried nuts")], cache := ⟨[]⟩ }
      (Op.put { method := .put,
                url := { scheme := "https", host := "localhost", pathname := "/cas/abc" },
                tokenIdHeader := some "squirrel",
                tokenValueHeader := some "many buried nuts",
                body := "hello" } 0 true))
      (Op.sweep 1209601000 (fun _ => false)), ?_, ?_⟩
  · exact Reachable.step _ _ (Reachable.step _ _ (Reachable.init _ (by decide)))
  · decide

/-- Witness for C7: upload "hello" to `/cas/abc` with token "u"/"s", then
retrieve it five milliseconds later. -/
theorem upload_then_retrieve_witness :
    (handlePut { db := [], bucket := [("tokens/u", "s")], cache := ⟨[]⟩ }
        { method := .put, url := { scheme := "https", host := "h", pathname := "/cas/abc" },
          tokenIdHeader := some "u", tokenValueHeader := some "s", body := "hello" }
        0 true).1.status = 201
    ∧ (handleGet (handlePut { db := [], bucket := [("tokens/u", "s")], cache := ⟨[]⟩ }
        { method := .put, url := { scheme := "https", host := "h", pathname := "/cas/abc" },
          tokenIdHeader := some "u", tokenValueHeader := some "s", body := "hello" }
        0 true).2
        { method := .put, url := { scheme := "https", host := "h", pathname := "/cas/abc" },
          tokenIdHeader := some "u", tokenValueHeader := some "s", body := "hello" }
        5).1 = { status := 200, body := some "hello" } :=
  upload_then_retrieve { db := [], bucket := [("tokens/u", "s")], cache := ⟨[]⟩ }
    { method := .put, url := { scheme := "https", host := "h", pathname := "/cas/abc" },
      tokenIdHeader := some "u", tokenValueHeader := some "s", body := "hello" }
    0 5 "u" "s" "cas/abc" rfl rfl (by decide) (by decide) (by decide) (by decide)
